import Mathlib

/-!
Verification development for the stencil-canvas pixel pipeline
(`src/lib/stencil.ts`, `src/lib/halftone.ts`, `src/lib/color.ts`).

The TypeScript code is shallowly embedded: machine floats are modelled by an
arbitrary linear ordered field `K` (instantiated at `ℚ` for computations and
at `ℝ` where the source uses `Math.sqrt`/`Math.cos`/`Math.exp`), typed
arrays by total functions from indices, and in-place updates by functional
updates.
-/

namespace StencilCanvas

/-- RGB triple with byte components, as produced by `hexToRgb`. -/
structure RGB where
  r : ℕ
  g : ℕ
  b : ℕ
deriving DecidableEq, Repr

/-- `ImageDataLike`: packed RGBA byte buffer with dimensions.  `data` gives
the byte at a linear offset (4 bytes per pixel, RGBA order). -/
structure ImageD where
  data : ℕ → ℕ
  width : ℕ
  height : ℕ

/-- The white basis used for decomposition in `computeStencil`. -/
def WHITE : RGB := ⟨255, 255, 255⟩

/-- Default paper color (cream). -/
def DEFAULT_PAPER : RGB := ⟨245, 240, 232⟩

section DecomposerK

variable {K : Type} [LinearOrderedField K]

/-- `Math.max(0, Math.min(1, x))`. -/
def clamp01 (x : K) : K := max 0 (min 1 x)

/-- Dot product of two channel triples. -/
def dot3 (a b : K × K × K) : K := a.1 * b.1 + a.2.1 * b.2.1 + a.2.2 * b.2.2

/-- Absorption vector of an ink against a paper basis: `(paper - ink) / 255`
per channel (`inkDeltas` in `decomposeColors`). -/
def inkDelta (paper ink : RGB) : K × K × K :=
  (((paper.r : K) - (ink.r : K)) / 255,
   ((paper.g : K) - (ink.g : K)) / 255,
   ((paper.b : K) - (ink.b : K)) / 255)

/-- Entry `(i, j)` of the precomputed Gram matrix `dotInkInk`. -/
def gramK (paper : RGB) (inks : List RGB) (i j : ℕ) : K :=
  dot3 (inkDelta paper (inks.getD i WHITE)) (inkDelta paper (inks.getD j WHITE))

/-- The `selfDot > 1e-10` guard threshold. -/
def selfEps : K := 1 / 10000000000

/-- Source alpha of pixel `p` as a fraction: `data[off + 3] / 255`. -/
def pixAlpha (img : ImageD) (p : ℕ) : K := (img.data (4 * p + 3) : K) / 255

/-- Per-pixel target vector `(paper - pixel) / 255 × alpha`. -/
def targetVec (img : ImageD) (paper : RGB) (p : ℕ) : K × K × K :=
  ((((paper.r : K) - (img.data (4 * p) : K)) / 255) * pixAlpha img p,
   (((paper.g : K) - (img.data (4 * p + 1) : K)) / 255) * pixAlpha img p,
   (((paper.b : K) - (img.data (4 * p + 2) : K)) / 255) * pixAlpha img p)

/-- Initial simple projection: `clamp(dot_i / selfDot_i, 0, 1)`, or `0` when
`selfDot_i ≤ 1e-10` (`selfDot` is inlined). -/
def projInit (paper : RGB) (inks : List RGB) (t : K × K × K) : List K :=
  inks.map fun ink =>
    if (selfEps : K) < dot3 (inkDelta paper ink) (inkDelta paper ink) then
      clamp01 (dot3 (inkDelta paper ink) t
        / dot3 (inkDelta paper ink) (inkDelta paper ink))
    else 0

/-- Numerator of the coordinate-descent update for ink `i`:
`dot_i − Σ_{j ≠ i} density_j × Gram[i][j]`, subtracted in source order. -/
def cdNumerator (paper : RGB) (inks : List RGB) (t : K × K × K)
    (ds : List K) (i : ℕ) : K :=
  (List.range inks.length).foldl
    (fun acc j => if j = i then acc else acc - ds.getD j 0 * gramK paper inks i j)
    (dot3 (inkDelta paper (inks.getD i WHITE)) t)

/-- One coordinate-descent update of ink `i` (in place on the density list;
`selfDot` is inlined). -/
def cdUpdate (paper : RGB) (inks : List RGB) (t : K × K × K)
    (ds : List K) (i : ℕ) : List K :=
  ds.set i
    (if (selfEps : K) < gramK paper inks i i then
      clamp01 (cdNumerator paper inks t ds i / gramK paper inks i i)
    else 0)

/-- One full sweep over all inks, updating them sequentially in list order
(Gauss–Seidel: later updates see earlier ones). -/
def cdSweep (paper : RGB) (inks : List RGB) (t : K × K × K) (ds : List K) :
    List K :=
  (List.range inks.length).foldl (cdUpdate paper inks t) ds

/-- Densities after `k` coordinate-descent sweeps, starting from the simple
projection. -/
def cdIterate (paper : RGB) (inks : List RGB) (t : K × K × K) : ℕ → List K
  | 0 => projInit paper inks t
  | k + 1 => cdSweep paper inks t (cdIterate paper inks t k)

/-- `MAX_ITER` in `decomposeColors`. -/
def MAX_ITER : ℕ := 12

/-- Densities for one pixel.  The `alpha < 0.01` branch zeroes every ink. -/
def decomposePixel (img : ImageD) (inks : List RGB) (paper : RGB) (p : ℕ) :
    List K :=
  if pixAlpha (K := K) img p < 1 / 100 then List.replicate inks.length 0
  else cdIterate paper inks (targetVec img paper p) MAX_ITER

/-- `decomposeColors`: one density map (pixel index → density) per ink. -/
def decomposeColors (img : ImageD) (inks : List RGB) (paper : RGB) :
    List (ℕ → K) :=
  (List.range inks.length).map fun i => fun p =>
    (decomposePixel (K := K) img inks paper p).getD i 0

end DecomposerK

/-- A 1×1 fully opaque black image. -/
def imgBlack11 : ImageD := ⟨fun k => if k % 4 = 3 then 255 else 0, 1, 1⟩

/-- Pure black ink. -/
def inkBlack : RGB := ⟨0, 0, 0⟩

/-- A mid gray ink whose absorption vector is parallel to black's. -/
def inkGray : RGB := ⟨85, 85, 85⟩

section Eval

lemma range_one : List.range 1 = [0] := rfl

lemma range_two : List.range 2 = [0, 1] := rfl

variable {K : Type} [LinearOrderedField K]

/-- Once the density vector is a fixed point of the sweep, every later
iterate equals it. -/
lemma cdIterate_stable (paper : RGB) (inks : List RGB) (t : K × K × K)
    {v : List K} (h1 : cdIterate paper inks t 1 = v)
    (hs : cdSweep paper inks t v = v) :
    ∀ k, cdIterate paper inks t (k + 1) = v := by
  intro k
  induction k with
  | zero => exact h1
  | succ n ih =>
    show cdSweep paper inks t (cdIterate paper inks t (n + 1)) = v
    rw [ih, hs]

lemma target_black11 : targetVec (K := ℚ) imgBlack11 WHITE 0 = (1, 1, 1) := by
  norm_num [targetVec, pixAlpha, imgBlack11, WHITE]

lemma init_bg : projInit (K := ℚ) WHITE [inkBlack, inkGray] (1, 1, 1) = [1, 1] := by
  norm_num [projInit, inkDelta, dot3, clamp01, selfEps, WHITE, inkBlack, inkGray]

lemma sweep_bg :
    cdSweep (K := ℚ) WHITE [inkBlack, inkGray] (1, 1, 1) [1, 1] = [1/3, 1] := by
  norm_num [cdSweep, cdUpdate, cdNumerator, gramK, inkDelta, dot3, clamp01,
    selfEps, WHITE, inkBlack, inkGray, range_two, List.foldl, List.getD,
    List.set]

lemma sweep_bg_fix :
    cdSweep (K := ℚ) WHITE [inkBlack, inkGray] (1, 1, 1) [1/3, 1] = [1/3, 1] := by
  norm_num [cdSweep, cdUpdate, cdNumerator, gramK, inkDelta, dot3, clamp01,
    selfEps, WHITE, inkBlack, inkGray, range_two, List.foldl, List.getD,
    List.set]

end Eval

section ListHelpers

variable {α β : Type}

lemma foldl_invariant (P : β → Prop) (f : β → α → β) (l : List α) (b : β)
    (hb : P b) (hf : ∀ b a, a ∈ l → P b → P (f b a)) : P (l.foldl f b) := by
  induction l generalizing b with
  | nil => exact hb
  | cons x xs ih =>
    exact ih (f b x) (hf b x (List.mem_cons_self x xs) hb)
      (fun c a ha hc => hf c a (List.mem_cons_of_mem x ha) hc)

lemma getD_set_eq_of_lt (l : List α) (i : ℕ) (v d : α) (h : i < l.length) :
    (l.set i v).getD i d = v := by
  induction l generalizing i with
  | nil => simp at h
  | cons x xs ih =>
    cases i with
    | zero => rfl
    | succ n => exact ih n (by simpa using h)

lemma getD_set_ne (l : List α) (i j : ℕ) (v d : α) (h : j ≠ i) :
    (l.set j v).getD i d = l.getD i d := by
  induction l generalizing i j with
  | nil => rfl
  | cons x xs ih =>
    cases j with
    | zero =>
      cases i with
      | zero => exact absurd rfl h
      | succ m => rfl
    | succ n =>
      cases i with
      | zero => rfl
      | succ m => exact ih m n (fun hnm => h (by rw [hnm]))

lemma getD_map_of_lt (f : α → β) (l : List α) (i : ℕ) (d : α) (d' : β)
    (h : i < l.length) : (l.map f).getD i d' = f (l.getD i d) := by
  induction l generalizing i with
  | nil => simp at h
  | cons x xs ih =>
    cases i with
    | zero => rfl
    | succ n => exact ih n (by simpa using h)

lemma getD_replicate_zero (n i : ℕ) {K : Type} [LinearOrderedField K] :
    (List.replicate n (0 : K)).getD i 0 = 0 := by
  induction n generalizing i with
  | zero => rfl
  | succ m ih =>
    cases i with
    | zero => rfl
    | succ j => exact ih j

lemma getD_range_map_of_lt (f : ℕ → β) (n i : ℕ) (d : β) (h : i < n) :
    ((List.range n).map f).getD i d = f i := by
  rw [getD_map_of_lt f (List.range n) i 0 d (by simpa using h)]
  congr 1
  rw [List.getD_eq_getElem?_getD, List.getElem?_range h]
  rfl

end ListHelpers

section DecompHelpers

variable {K : Type} [LinearOrderedField K]

lemma decomposeColors_getD (img : ImageD) (inks : List RGB) (paper : RGB)
    (i : ℕ) (hi : i < inks.length) :
    (decomposeColors (K := K) img inks paper).getD i (fun _ => 0)
      = fun p => (decomposePixel (K := K) img inks paper p).getD i 0 := by
  rw [decomposeColors, getD_range_map_of_lt _ inks.length i _ hi]

end DecompHelpers

section ClaimC1

/-- Evaluation of the gray-ink map, gray listed first: density 0. -/
lemma init_gb : projInit (K := ℚ) WHITE [inkGray, inkBlack] (1, 1, 1) = [1, 1] := by
  norm_num [projInit, inkDelta, dot3, clamp01, selfEps, WHITE, inkBlack, inkGray]

lemma sweep_gb :
    cdSweep (K := ℚ) WHITE [inkGray, inkBlack] (1, 1, 1) [1, 1] = [0, 1] := by
  norm_num [cdSweep, cdUpdate, cdNumerator, gramK, inkDelta, dot3, clamp01,
    selfEps, WHITE, inkBlack, inkGray, range_two, List.foldl, List.getD,
    List.set]

lemma sweep_gb_fix :
    cdSweep (K := ℚ) WHITE [inkGray, inkBlack] (1, 1, 1) [0, 1] = [0, 1] := by
  norm_num [cdSweep, cdUpdate, cdNumerator, gramK, inkDelta, dot3, clamp01,
    selfEps, WHITE, inkBlack, inkGray, range_two, List.foldl, List.getD,
    List.set]

lemma run_bg :
    decomposePixel (K := ℚ) imgBlack11 [inkBlack, inkGray] WHITE 0 = [1/3, 1] := by
  rw [decomposePixel, if_neg (by norm_num [pixAlpha, imgBlack11]), target_black11]
  show cdIterate (K := ℚ) WHITE [inkBlack, inkGray] (1, 1, 1) (11 + 1) = [1/3, 1]
  refine cdIterate_stable WHITE [inkBlack, inkGray] (1, 1, 1) ?_ sweep_bg_fix 11
  show cdSweep (K := ℚ) WHITE [inkBlack, inkGray] (1, 1, 1)
      (projInit WHITE [inkBlack, inkGray] (1, 1, 1)) = [1/3, 1]
  rw [init_bg, sweep_bg]

lemma run_gb :
    decomposePixel (K := ℚ) imgBlack11 [inkGray, inkBlack] WHITE 0 = [0, 1] := by
  rw [decomposePixel, if_neg (by norm_num [pixAlpha, imgBlack11]), target_black11]
  show cdIterate (K := ℚ) WHITE [inkGray, inkBlack] (1, 1, 1) (11 + 1) = [0, 1]
  refine cdIterate_stable WHITE [inkGray, inkBlack] (1, 1, 1) ?_ sweep_gb_fix 11
  show cdSweep (K := ℚ) WHITE [inkGray, inkBlack] (1, 1, 1)
      (projInit WHITE [inkGray, inkBlack] (1, 1, 1)) = [0, 1]
  rw [init_gb, sweep_gb]

/-- C1 counterexample: swapping the two inks `[black, gray]` of a 1×1 black
image changes the gray ink's density at the only pixel from 1 to 0, so
`decomposeColors` is not permutation-equivariant: the coordinate-descent
sweeps visit inks in list order and later updates see earlier ones. -/
theorem decomposeColors_not_perm_equivariant :
    ¬ ((decomposeColors (K := ℚ) imgBlack11 [inkGray, inkBlack] WHITE).getD 0
          (fun _ => 0) 0
        = (decomposeColors (K := ℚ) imgBlack11 [inkBlack, inkGray] WHITE).getD 1
          (fun _ => 0) 0) := by
  intro h
  rw [decomposeColors_getD imgBlack11 [inkGray, inkBlack] WHITE 0 (by norm_num),
    decomposeColors_getD imgBlack11 [inkBlack, inkGray] WHITE 1 (by norm_num)] at h
  simp only [run_gb, run_bg] at h
  norm_num [List.getD] at h

/-- C1 (amended): the initial simple-projection densities are
permutation-equivariant in the ink list — each ink's initial density depends
only on that ink and the target, so any reindexing of the ink list reindexes
the projections correspondingly.  (The subsequent in-order coordinate-descent
sweeps are what break equivariance for the full decomposition.) -/
theorem projInit_perm_equivariant {K : Type} [LinearOrderedField K]
    (paper : RGB) (l : List RGB) (t : K × K × K) (σ : List ℕ)
    (hσ : ∀ i ∈ σ, i < l.length) :
    projInit paper (σ.map fun i => l.getD i WHITE) t
      = σ.map fun i => (projInit paper l t).getD i 0 := by
  rw [projInit, projInit, List.map_map]
  refine List.map_congr_left fun i hi => ?_
  rw [getD_map_of_lt _ l i WHITE 0 (hσ i hi)]
  rfl

theorem projInit_perm_equivariant_witness :
    (∀ i ∈ [1, 0], i < ([inkBlack, inkGray] : List RGB).length) ∧
      projInit (K := ℚ) WHITE
          ([1, 0].map fun i => [inkBlack, inkGray].getD i WHITE) ((1 : ℚ), 1, 1)
        = [1, 0].map fun i =>
            (projInit (K := ℚ) WHITE [inkBlack, inkGray] ((1 : ℚ), 1, 1)).getD i 0 :=
  ⟨by decide, projInit_perm_equivariant WHITE [inkBlack, inkGray] (1, 1, 1) [1, 0]
    (by decide)⟩

end ClaimC1

section ClaimC3

variable {K : Type} [LinearOrderedField K]

/-- C3: when an ink's self-absorption `Gram[i][i]` is at most the `1e-10`
threshold (the ink is visually identical to the basis), its density is
forced to 0: in the initial projection, after every number of
coordinate-descent sweeps, and in the final decomposed map at every pixel —
no division by the near-zero self-dot ever happens and no error is
signalled. -/
theorem selfDot_near_zero_forces_zero_density
    (paper : RGB) (inks : List RGB) (i : ℕ) (hi : i < inks.length)
    (hsd : gramK (K := K) paper inks i i ≤ selfEps) :
    (∀ t : K × K × K, (projInit paper inks t).getD i 0 = 0)
    ∧ (∀ (t : K × K × K) (k : ℕ), (cdIterate paper inks t k).getD i 0 = 0)
    ∧ (∀ (img : ImageD) (p : ℕ),
        (decomposeColors (K := K) img inks paper).getD i (fun _ => 0) p = 0) := by
  have hsd' : dot3 (K := K) (inkDelta paper (inks.getD i WHITE))
      (inkDelta paper (inks.getD i WHITE)) ≤ selfEps := by rwa [gramK] at hsd
  have hproj : ∀ t : K × K × K, (projInit paper inks t).getD i 0 = 0 := by
    intro t
    rw [projInit, getD_map_of_lt _ inks i WHITE 0 hi]
    exact if_neg (not_lt.mpr hsd')
  have hupd : ∀ (t : K × K × K) (ds : List K) (j : ℕ),
      ds.getD i 0 = 0 → (cdUpdate paper inks t ds j).getD i 0 = 0 := by
    intro t ds j hds
    rw [cdUpdate]
    by_cases hj : j = i
    · subst hj
      rcases lt_or_le j ds.length with hlen | hlen
      · rw [getD_set_eq_of_lt _ _ _ _ hlen, if_neg (not_lt.mpr hsd)]
      · rw [List.set_eq_of_length_le hlen, hds]
    · rw [getD_set_ne _ _ _ _ _ hj, hds]
  have hiter : ∀ (t : K × K × K) (k : ℕ), (cdIterate paper inks t k).getD i 0 = 0 := by
    intro t k
    induction k with
    | zero => exact hproj t
    | succ n ih =>
      show (cdSweep paper inks t (cdIterate paper inks t n)).getD i 0 = 0
      exact foldl_invariant (fun ds => ds.getD i 0 = 0) _ _ _ ih
        (fun ds j _ hds => hupd t ds j hds)
  refine ⟨hproj, hiter, fun img p => ?_⟩
  rw [decomposeColors, getD_range_map_of_lt _ inks.length i (fun _ => 0) hi]
  rw [decomposePixel]
  split
  · exact getD_replicate_zero inks.length i
  · exact hiter _ MAX_ITER

theorem selfDot_near_zero_witness :
    (0 < ([WHITE] : List RGB).length ∧ gramK (K := ℚ) WHITE [WHITE] 0 0 ≤ selfEps)
    ∧ (decomposeColors (K := ℚ) imgBlack11 [WHITE] WHITE).getD 0 (fun _ => 0) 0 = 0 :=
  ⟨⟨by norm_num, by norm_num [gramK, inkDelta, dot3, selfEps, WHITE]⟩,
   (selfDot_near_zero_forces_zero_density WHITE [WHITE] 0 (by norm_num)
      (by norm_num [gramK, inkDelta, dot3, selfEps, WHITE])).2.2 imgBlack11 0⟩

end ClaimC3

section DensityAssembly

variable {K : Type} [LinearOrderedField K]

/-- The low-absorption test of `computeStencil`:
`Math.sqrt(dR² + dG² + dB²) < 0.05` with `dX = (255 - ink.x)/255`, stated
equivalently on squares (both sides are nonnegative):
`dR² + dG² + dB² < 0.0025`. -/
def isLowAbsorption (ink : RGB) : Bool :=
  decide (dot3 (K := K) (inkDelta WHITE ink) (inkDelta WHITE ink) < 1 / 400)

/-- Luminance-derived fallback density for low-absorption inks:
`(1 - lum) × alpha`, with Rec. 709 luminance. -/
def lumMap (src : ImageD) : ℕ → K := fun p =>
  (1 - ((2126 / 10000 : K) * (src.data (4 * p) : K)
        + (7152 / 10000 : K) * (src.data (4 * p + 1) : K)
        + (722 / 10000 : K) * (src.data (4 * p + 2) : K)) / 255)
    * pixAlpha src p

/-- `decompIndexMap`: positions of the inks that go through decomposition. -/
def decompIdx (inkRgbs : List RGB) : List ℕ :=
  (List.range inkRgbs.length).filter fun i =>
    ! isLowAbsorption (K := K) (inkRgbs.getD i WHITE)

/-- Assembly of the per-ink density maps in `computeStencil`: non-low inks
get their `decomposeColors` map (computed against the white basis), inks
with low absorption get the luminance fallback. -/
def buildDensityMaps (src : ImageD) (inkRgbs : List RGB) : List (ℕ → K) :=
  (List.range inkRgbs.length).map fun i =>
    if isLowAbsorption (K := K) (inkRgbs.getD i WHITE) then lumMap (K := K) src
    else
      (if 0 < (decompIdx (K := K) inkRgbs).length then
        decomposeColors src
          ((decompIdx (K := K) inkRgbs).map fun j => inkRgbs.getD j WHITE) WHITE
      else []).getD ((decompIdx (K := K) inkRgbs).indexOf i) (fun _ => 0)

/-- Any map produced by `decomposeColors` is 0 at a pixel whose alpha is
below the 0.01 threshold. -/
lemma decomposeColors_zero_of_low_alpha (src : ImageD) (inks : List RGB)
    (paper : RGB) (k p : ℕ) (ha : pixAlpha (K := K) src p < 1 / 100) :
    (decomposeColors (K := K) src inks paper).getD k (fun _ => 0) p = 0 := by
  rcases lt_or_le k inks.length with hk | hk
  · rw [decomposeColors_getD src inks paper k hk]
    show (decomposePixel (K := K) src inks paper p).getD k 0 = 0
    rw [decomposePixel, if_pos ha]
    exact getD_replicate_zero inks.length k
  · rw [List.getD_eq_default _ _ (by simpa [decomposeColors] using hk)]

end DensityAssembly

section ClaimC2

/-- A 1×1 black image whose alpha byte is 1 (alpha fraction 1/255 < 0.01). -/
def imgFaint11 : ImageD := ⟨fun k => if k % 4 = 3 then 1 else 0, 1, 1⟩

/-- C2 counterexample: with the single low-absorption ink white, the
luminance fallback gives the 1×1 black pixel with alpha byte 1 the density
`(1 - 0) × 1/255 = 1/255 ≠ 0` even though its alpha `1/255` is below the
0.01 threshold — the fallback only scales by alpha, it does not zero
low-alpha pixels. -/
theorem fallback_density_nonzero_below_alpha_threshold :
    pixAlpha (K := ℚ) imgFaint11 0 < 1 / 100
    ∧ ¬ ((buildDensityMaps (K := ℚ) imgFaint11 [WHITE]).getD 0 (fun _ => 0) 0 = 0) := by
  constructor
  · norm_num [pixAlpha, imgFaint11]
  · norm_num [buildDensityMaps, decompIdx, isLowAbsorption, lumMap, pixAlpha,
      imgFaint11, inkDelta, dot3, WHITE, range_one, List.filter, List.getD]

/-- C2 (amended): a pixel with alpha below the 0.01 threshold gets density
exactly 0 for every ink that goes through color decomposition; for
luminance-fallback (low-absorption) inks the density is `(1 - lum) × alpha`,
which is exactly 0 whenever the source alpha byte is 0 — so a fully
transparent pixel gets density 0 for every ink, fallback inks included. -/
theorem low_alpha_pixel_density_zero {K : Type} [LinearOrderedField K]
    (src : ImageD) (inks : List RGB) (i p : ℕ) :
    (¬ isLowAbsorption (K := K) (inks.getD i WHITE) = true →
      pixAlpha (K := K) src p < 1 / 100 →
      (buildDensityMaps (K := K) src inks).getD i (fun _ => 0) p = 0)
    ∧ (src.data (4 * p + 3) = 0 →
      (buildDensityMaps (K := K) src inks).getD i (fun _ => 0) p = 0) := by
  have hsplit : ∀ hp : i < inks.length,
      (buildDensityMaps (K := K) src inks).getD i (fun _ => 0)
        = if isLowAbsorption (K := K) (inks.getD i WHITE) then lumMap (K := K) src
          else
            (if 0 < (decompIdx (K := K) inks).length then
              decomposeColors src
                ((decompIdx (K := K) inks).map fun j => inks.getD j WHITE) WHITE
            else []).getD ((decompIdx (K := K) inks).indexOf i) (fun _ => 0) := by
    intro hp
    rw [buildDensityMaps, getD_range_map_of_lt _ inks.length i _ hp]
  constructor
  · intro hlow ha
    rcases lt_or_le i inks.length with hp | hp
    · rw [hsplit hp, if_neg hlow]
      split
      · exact decomposeColors_zero_of_low_alpha src _ WHITE _ p ha
      · rw [List.getD_eq_default _ _ (by simp)]
    · rw [List.getD_eq_default _ _ (by simpa [buildDensityMaps] using hp)]
  · intro ha
    have ha' : pixAlpha (K := K) src p < 1 / 100 := by
      rw [pixAlpha, ha]; norm_num
    rcases lt_or_le i inks.length with hp | hp
    · rw [hsplit hp]
      split
      · rw [lumMap, pixAlpha, ha]; norm_num
      · split
        · exact decomposeColors_zero_of_low_alpha src _ WHITE _ p ha'
        · rw [List.getD_eq_default _ _ (by simp)]
    · rw [List.getD_eq_default _ _ (by simpa [buildDensityMaps] using hp)]

/-- A 1×1 fully transparent image (all bytes 0). -/
def imgClear11 : ImageD := ⟨fun _ => 0, 1, 1⟩

theorem low_alpha_pixel_density_zero_witness :
    (¬ isLowAbsorption (K := ℚ) (([inkBlack] : List RGB).getD 0 WHITE) = true
      ∧ pixAlpha (K := ℚ) imgClear11 0 < 1 / 100
      ∧ imgClear11.data (4 * 0 + 3) = 0)
    ∧ (buildDensityMaps (K := ℚ) imgClear11 [inkBlack]).getD 0 (fun _ => 0) 0 = 0
    ∧ (buildDensityMaps (K := ℚ) imgClear11 [WHITE]).getD 0 (fun _ => 0) 0 = 0 :=
  ⟨⟨by norm_num [isLowAbsorption, inkDelta, dot3, WHITE, inkBlack],
    by norm_num [pixAlpha, imgClear11], rfl⟩,
   (low_alpha_pixel_density_zero imgClear11 [inkBlack] 0 0).1
     (by norm_num [isLowAbsorption, inkDelta, dot3, WHITE, inkBlack])
     (by norm_num [pixAlpha, imgClear11]),
   (low_alpha_pixel_density_zero imgClear11 [WHITE] 0 0).2 rfl⟩

end ClaimC2

section ClaimC6

variable {K : Type} [LinearOrderedField K]

lemma clamp01_bounds (x : K) : 0 ≤ clamp01 x ∧ clamp01 x ≤ 1 :=
  ⟨le_max_left 0 _, max_le zero_le_one (min_le_left 1 x)⟩

lemma projInit_getD_bounds (paper : RGB) (inks : List RGB) (t : K × K × K)
    (j : ℕ) : 0 ≤ (projInit paper inks t).getD j 0
      ∧ (projInit paper inks t).getD j 0 ≤ 1 := by
  rcases lt_or_le j inks.length with hj | hj
  · rw [projInit, getD_map_of_lt _ inks j WHITE 0 hj]
    split
    · exact clamp01_bounds _
    · exact ⟨le_refl 0, zero_le_one⟩
  · rw [List.getD_eq_default _ _ (by simpa [projInit] using hj)]
    exact ⟨le_refl 0, zero_le_one⟩

lemma cdIterate_getD_bounds (paper : RGB) (inks : List RGB) (t : K × K × K)
    (k j : ℕ) : 0 ≤ (cdIterate paper inks t k).getD j 0
      ∧ (cdIterate paper inks t k).getD j 0 ≤ 1 := by
  induction k generalizing j with
  | zero => exact projInit_getD_bounds paper inks t j
  | succ n ih =>
    show 0 ≤ (cdSweep paper inks t (cdIterate paper inks t n)).getD j 0 ∧ _
    revert j
    refine foldl_invariant
      (fun ds : List K => ∀ j, 0 ≤ ds.getD j 0 ∧ ds.getD j 0 ≤ 1) _ _ _ ih ?_
    intro ds a _ hds j
    rw [cdUpdate]
    by_cases hj : a = j
    · subst hj
      rcases lt_or_le a ds.length with hlen | hlen
      · rw [getD_set_eq_of_lt _ _ _ _ hlen]
        split
        · exact clamp01_bounds _
        · exact ⟨le_refl 0, zero_le_one⟩
      · rw [List.set_eq_of_length_le hlen]
        exact hds a
    · rw [getD_set_ne _ _ _ _ _ hj]
      exact hds j

lemma decomposePixel_getD_bounds (img : ImageD) (inks : List RGB)
    (paper : RGB) (p j : ℕ) :
    0 ≤ (decomposePixel (K := K) img inks paper p).getD j 0
      ∧ (decomposePixel (K := K) img inks paper p).getD j 0 ≤ 1 := by
  rw [decomposePixel]
  split
  · rw [getD_replicate_zero]
    exact ⟨le_refl 0, zero_le_one⟩
  · exact cdIterate_getD_bounds paper inks _ MAX_ITER j

lemma lumMap_bounds (src : ImageD) (p : ℕ)
    (hr : src.data (4 * p) ≤ 255) (hg : src.data (4 * p + 1) ≤ 255)
    (hb : src.data (4 * p + 2) ≤ 255) (ha : src.data (4 * p + 3) ≤ 255) :
    0 ≤ lumMap (K := K) src p ∧ lumMap (K := K) src p ≤ 1 := by
  have hr' : (src.data (4 * p) : K) ≤ 255 := by exact_mod_cast hr
  have hg' : (src.data (4 * p + 1) : K) ≤ 255 := by exact_mod_cast hg
  have hb' : (src.data (4 * p + 2) : K) ≤ 255 := by exact_mod_cast hb
  have ha' : (src.data (4 * p + 3) : K) ≤ 255 := by exact_mod_cast ha
  have hr0 : (0 : K) ≤ (src.data (4 * p) : K) := Nat.cast_nonneg _
  have hg0 : (0 : K) ≤ (src.data (4 * p + 1) : K) := Nat.cast_nonneg _
  have hb0 : (0 : K) ≤ (src.data (4 * p + 2) : K) := Nat.cast_nonneg _
  have ha0 : (0 : K) ≤ (src.data (4 * p + 3) : K) := Nat.cast_nonneg _
  rw [lumMap, pixAlpha]
  constructor
  · apply mul_nonneg
    · nlinarith
    · positivity
  · apply mul_le_one₀
    · nlinarith
    · positivity
    · nlinarith

/-- C6: every value of every assembled density map — both the NNLS
decomposition maps (clamped at the initial projection and at every
coordinate-descent update) and the luminance-fallback maps — lies in
`[0, 1]`, for any byte-valued source image and any ink set. -/
theorem density_maps_in_unit_interval {K : Type} [LinearOrderedField K]
    (src : ImageD) (inks : List RGB) (i p : ℕ)
    (hdata : ∀ k, src.data k ≤ 255) :
    0 ≤ (buildDensityMaps (K := K) src inks).getD i (fun _ => 0) p
      ∧ (buildDensityMaps (K := K) src inks).getD i (fun _ => 0) p ≤ 1 := by
  rcases lt_or_le i inks.length with hp | hp
  · rw [buildDensityMaps, getD_range_map_of_lt _ inks.length i _ hp]
    split
    · exact lumMap_bounds src p (hdata _) (hdata _) (hdata _) (hdata _)
    · set l : List (ℕ → K) := if 0 < (decompIdx (K := K) inks).length then
          decomposeColors src
            ((decompIdx (K := K) inks).map fun j => inks.getD j WHITE) WHITE
        else [] with hl
      set k := (decompIdx (K := K) inks).indexOf i
      rcases lt_or_le k l.length with hk | hk
      · rw [hl]
        split
        · rename_i hlen
          have hk' : k < ((decompIdx (K := K) inks).map
              fun j => inks.getD j WHITE).length := by
            have := hk
            rw [hl, if_pos hlen] at this
            simpa [decomposeColors] using this
          rw [decomposeColors_getD _ _ _ _ hk']
          exact decomposePixel_getD_bounds src _ WHITE p k
        · rw [List.getD_eq_default _ _ (by simp)]
          exact ⟨le_refl 0, zero_le_one⟩
      · rw [List.getD_eq_default _ _ hk]
        exact ⟨le_refl 0, zero_le_one⟩
  · rw [List.getD_eq_default _ _ (by simpa [buildDensityMaps] using hp)]
    exact ⟨le_refl 0, zero_le_one⟩

theorem density_maps_in_unit_interval_witness :
    (∀ k, imgBlack11.data k ≤ 255)
    ∧ (0 ≤ (buildDensityMaps (K := ℚ) imgBlack11 [inkBlack, WHITE]).getD 0
          (fun _ => 0) 0
        ∧ (buildDensityMaps (K := ℚ) imgBlack11 [inkBlack, WHITE]).getD 0
          (fun _ => 0) 0 ≤ 1) :=
  ⟨fun k => by by_cases h : k % 4 = 3 <;> simp [imgBlack11, h],
   density_maps_in_unit_interval imgBlack11 [inkBlack, WHITE] 0 0
     (fun k => by by_cases h : k % 4 = 3 <;> simp [imgBlack11, h])⟩

end ClaimC6

section Compositor

variable {K : Type} [LinearOrderedField K] [FloorRing K]

/-- One ink layer as consumed by the compositing loop of `computeStencil`:
its RGB color, its (post-halftone, post-scuff) opacity map, its per-layer
misregistration offset, and the per-pixel grain jitter samples
(the `Math.random()` values drawn for this layer). -/
structure Layer (K : Type) where
  rgb : RGB
  opMap : ℕ → K
  ox : ℤ
  oy : ℤ
  jit : ℕ → K

/-- Misregistered source x-coordinate `x - ox` for pixel index `pi`. -/
def srcX (w : ℕ) (L : Layer K) (pi : ℕ) : ℤ := ((pi % w : ℕ) : ℤ) - L.ox

/-- Misregistered source y-coordinate `y - oy` for pixel index `pi`. -/
def srcY (w : ℕ) (L : Layer K) (pi : ℕ) : ℤ := ((pi / w : ℕ) : ℤ) - L.oy

/-- Bounds check of the compositing loop (out-of-bounds source → skip). -/
def inB (w h : ℕ) (L : Layer K) (pi : ℕ) : Prop :=
  0 ≤ srcX w L pi ∧ srcX w L pi < (w : ℤ)
    ∧ 0 ≤ srcY w L pi ∧ srcY w L pi < (h : ℤ)

instance (w h : ℕ) (L : Layer K) (pi : ℕ) : Decidable (inB w h L pi) := by
  unfold inB; infer_instance

/-- Linear index of the misregistered source pixel. -/
def srcIdx (w : ℕ) (L : Layer K) (pi : ℕ) : ℕ :=
  (srcY w L pi).toNat * w + (srcX w L pi).toNat

/-- Layer opacity at a destination pixel: the opacity map sampled at the
misregistered position, plus the grain jitter (clamped) when `grain > 0`. -/
def layerOp (w : ℕ) (grain : K) (L : Layer K) (pi : ℕ) : K :=
  if 0 < grain then
    clamp01 (L.opMap (srcIdx w L pi) + (L.jit pi - 1 / 2) * grain)
  else L.opMap (srcIdx w L pi)

/-- Per-channel transmittance `1 - a × (1 - c/255)` for coverage `a` and ink
channel byte `c`. -/
def transT (a : K) (c : ℕ) : K := 1 - a * (1 - (c : K) / 255)

/-- `Uint8ClampedArray` assignment clamp (the stored value is already an
integer here, since the source rounds before assigning). -/
def clampByte (z : ℤ) : ℤ := max 0 (min 255 z)

/-- Whether the compositing loop writes pixel `pi` for layer `L`: inside the
image, in-bounds after misregistration, and opacity at least 0.004. -/
def layerWrites (w h : ℕ) (grain : K) (L : Layer K) (pi : ℕ) : Prop :=
  pi < w * h ∧ inB w h L pi ∧ ¬ layerOp w grain L pi < 1 / 250

instance (w h : ℕ) (grain : K) (L : Layer K) (pi : ℕ) :
    Decidable (layerWrites w h grain L pi) := by
  unfold layerWrites; infer_instance

/-- Composite one ink layer into the running accumulation state
(multiply-blend the RGB buffer, union the coverage alpha). -/
def compositeLayer (w h : ℕ) (inkOpacity grain : K)
    (st : (ℕ → ℤ × ℤ × ℤ) × (ℕ → K)) (L : Layer K) :
    (ℕ → ℤ × ℤ × ℤ) × (ℕ → K) :=
  (fun pi =>
    if layerWrites w h grain L pi then
      (clampByte (round (((st.1 pi).1 : K)
          * transT (layerOp w grain L pi * inkOpacity) L.rgb.r)),
       clampByte (round (((st.1 pi).2.1 : K)
          * transT (layerOp w grain L pi * inkOpacity) L.rgb.g)),
       clampByte (round (((st.1 pi).2.2 : K)
          * transT (layerOp w grain L pi * inkOpacity) L.rgb.b)))
    else st.1 pi,
   fun pi =>
    if layerWrites w h grain L pi then
      1 - (1 - st.2 pi) * (1 - layerOp w grain L pi * inkOpacity)
    else st.2 pi)

/-- The accumulation buffer before any layer: all-white, zero coverage. -/
def initState : (ℕ → ℤ × ℤ × ℤ) × (ℕ → K) :=
  (fun _ => (255, 255, 255), fun _ => 0)

/-- Composite a list of layers in order. -/
def compositeAll (w h : ℕ) (inkOpacity grain : K) (layers : List (Layer K)) :
    (ℕ → ℤ × ℤ × ℤ) × (ℕ → K) :=
  layers.foldl (compositeLayer w h inkOpacity grain) initState

lemma round_eval (x : K) (z : ℤ) (h1 : (z : K) ≤ x + 1 / 2)
    (h2 : x + 1 / 2 < z + 1) : round x = z := by
  rw [round_eq, Int.floor_eq_iff]
  exact ⟨h1, h2⟩

lemma compositeLayer_rgb_at (w h : ℕ) (f g : K)
    (st : (ℕ → ℤ × ℤ × ℤ) × (ℕ → K)) (L : Layer K) (pi : ℕ)
    (hw : layerWrites w h g L pi) :
    (compositeLayer w h f g st L).1 pi
      = (clampByte (round (((st.1 pi).1 : K)
            * transT (layerOp w g L pi * f) L.rgb.r)),
         clampByte (round (((st.1 pi).2.1 : K)
            * transT (layerOp w g L pi * f) L.rgb.g)),
         clampByte (round (((st.1 pi).2.2 : K)
            * transT (layerOp w g L pi * f) L.rgb.b))) := by
  simp only [compositeLayer, if_pos hw]

lemma compositeLayer_rgb_skip (w h : ℕ) (f g : K)
    (st : (ℕ → ℤ × ℤ × ℤ) × (ℕ → K)) (L : Layer K) (pi : ℕ)
    (hw : ¬ layerWrites w h g L pi) :
    (compositeLayer w h f g st L).1 pi = st.1 pi := by
  simp only [compositeLayer, if_neg hw]

lemma compositeLayer_alpha_at (w h : ℕ) (f g : K)
    (st : (ℕ → ℤ × ℤ × ℤ) × (ℕ → K)) (L : Layer K) (pi : ℕ)
    (hw : layerWrites w h g L pi) :
    (compositeLayer w h f g st L).2 pi
      = 1 - (1 - st.2 pi) * (1 - layerOp w g L pi * f) := by
  simp only [compositeLayer, if_pos hw]

lemma compositeLayer_alpha_skip (w h : ℕ) (f g : K)
    (st : (ℕ → ℤ × ℤ × ℤ) × (ℕ → K)) (L : Layer K) (pi : ℕ)
    (hw : ¬ layerWrites w h g L pi) :
    (compositeLayer w h f g st L).2 pi = st.2 pi := by
  simp only [compositeLayer, if_neg hw]

end Compositor

section ClaimC4

/-- First counterexample layer: black ink, uniform opacity 1/2, no offset. -/
def cexL1 : Layer ℚ := ⟨⟨0, 0, 0⟩, fun _ => 1 / 2, 0, 0, fun _ => 0⟩

/-- Second counterexample layer: ink (247,0,0), uniform opacity 17/160. -/
def cexL2 : Layer ℚ := ⟨⟨247, 0, 0⟩, fun _ => 17 / 160, 0, 0, fun _ => 0⟩

/-- C4 counterexample: on a 1×1 image with ink opacity 1, no grain and zero
offsets, compositing the two layers in the two orders gives red channel 128
vs 127 — the per-layer `Math.round` into the byte buffer makes the
composition order-dependent. -/
lemma cex_hw1 : layerWrites 1 1 (0 : ℚ) cexL1 0 := by
  refine ⟨by norm_num, ⟨?_, ?_, ?_, ?_⟩, ?_⟩ <;>
    norm_num [inB, srcX, srcY, layerOp, srcIdx, cexL1]

lemma cex_hw2 : layerWrites 1 1 (0 : ℚ) cexL2 0 := by
  refine ⟨by norm_num, ⟨?_, ?_, ?_, ?_⟩, ?_⟩ <;>
    norm_num [inB, srcX, srcY, layerOp, srcIdx, cexL2]

lemma cex_op1 : layerOp 1 (0 : ℚ) cexL1 0 = 1 / 2 := by
  norm_num [layerOp, srcIdx, srcX, srcY, cexL1]

lemma cex_op2 : layerOp 1 (0 : ℚ) cexL2 0 = 17 / 160 := by
  norm_num [layerOp, srcIdx, srcX, srcY, cexL2]

theorem composite_not_order_independent :
    ¬ (((compositeAll 1 1 (1 : ℚ) 0 [cexL1, cexL2]).1 0).1
        = ((compositeAll 1 1 (1 : ℚ) 0 [cexL2, cexL1]).1 0).1) := by
  have t1 : transT (layerOp 1 (0 : ℚ) cexL1 0 * 1) cexL1.rgb.r = 1 / 2 := by
    rw [cex_op1]; norm_num [transT, cexL1]
  have t2 : transT (layerOp 1 (0 : ℚ) cexL2 0 * 1) cexL2.rgb.r = 299 / 300 := by
    rw [cex_op2]; norm_num [transT, cexL2]
  have h1 : ((compositeAll 1 1 (1 : ℚ) 0 [cexL1, cexL2]).1 0).1 = 128 := by
    show ((compositeLayer 1 1 (1 : ℚ) 0 (compositeLayer 1 1 1 0 initState cexL1)
      cexL2).1 0).1 = 128
    rw [compositeLayer_rgb_at 1 1 1 0 _ cexL2 0 cex_hw2,
      compositeLayer_rgb_at 1 1 1 0 _ cexL1 0 cex_hw1]
    show clampByte (round (((clampByte (round
        ((((initState (K := ℚ)).1 0).1 : ℚ)
          * transT (layerOp 1 (0 : ℚ) cexL1 0 * 1) cexL1.rgb.r)) : ℤ) : ℚ)
        * transT (layerOp 1 (0 : ℚ) cexL2 0 * 1) cexL2.rgb.r)) = 128
    rw [t1, t2]
    rw [show (((initState (K := ℚ)).1 0).1 : ℚ) = 255 by norm_num [initState]]
    rw [round_eval ((255 : ℚ) * (1 / 2)) 128 (by norm_num) (by norm_num)]
    rw [show clampByte 128 = 128 by norm_num [clampByte]]
    rw [round_eval (((128 : ℤ) : ℚ) * (299 / 300)) 128 (by norm_num)
      (by norm_num)]
    norm_num [clampByte]
  have h2 : ((compositeAll 1 1 (1 : ℚ) 0 [cexL2, cexL1]).1 0).1 = 127 := by
    show ((compositeLayer 1 1 (1 : ℚ) 0 (compositeLayer 1 1 1 0 initState cexL2)
      cexL1).1 0).1 = 127
    rw [compositeLayer_rgb_at 1 1 1 0 _ cexL1 0 cex_hw1,
      compositeLayer_rgb_at 1 1 1 0 _ cexL2 0 cex_hw2]
    show clampByte (round (((clampByte (round
        ((((initState (K := ℚ)).1 0).1 : ℚ)
          * transT (layerOp 1 (0 : ℚ) cexL2 0 * 1) cexL2.rgb.r)) : ℤ) : ℚ)
        * transT (layerOp 1 (0 : ℚ) cexL1 0 * 1) cexL1.rgb.r)) = 127
    rw [t1, t2]
    rw [show (((initState (K := ℚ)).1 0).1 : ℚ) = 255 by norm_num [initState]]
    rw [round_eval ((255 : ℚ) * (299 / 300)) 254 (by norm_num) (by norm_num)]
    rw [show clampByte 254 = 254 by norm_num [clampByte]]
    rw [round_eval (((254 : ℤ) : ℚ) * (1 / 2)) 127 (by norm_num) (by norm_num)]
    norm_num [clampByte]
  rw [h1, h2]
  norm_num

/-- C4 (amended): the exact (unrounded) per-channel transmittance product
`Π (1 − opacity × inkOpacity × (1 − c/255))` is invariant under any
reordering of the ink layers — the blend formula itself is commutative — but
the code rounds the accumulation buffer to an integer after each layer, so
the stored bytes can differ between orders (by one, as in the
counterexample). -/
theorem transmittance_product_perm_invariant {K : Type} [LinearOrderedField K]
    (f : K) (l₁ l₂ : List (ℕ × K)) (hp : List.Perm l₁ l₂) :
    (l₁.map fun ci => transT (ci.2 * f) ci.1).prod
      = (l₂.map fun ci => transT (ci.2 * f) ci.1).prod :=
  (hp.map _).prod_eq

theorem transmittance_product_perm_invariant_witness :
    List.Perm [((0 : ℕ), (1 : ℚ) / 2), (247, 17 / 160)]
        [(247, 17 / 160), ((0 : ℕ), (1 : ℚ) / 2)]
    ∧ ([((0 : ℕ), (1 : ℚ) / 2), (247, 17 / 160)].map
          fun ci => transT (ci.2 * 1) ci.1).prod
        = ([(247, 17 / 160), ((0 : ℕ), (1 : ℚ) / 2)].map
          fun ci => transT (ci.2 * 1) ci.1).prod :=
  ⟨List.Perm.swap _ _ _,
   transmittance_product_perm_invariant 1 _ _ (List.Perm.swap _ _ _)⟩

end ClaimC4

section Halftone

/-- Halftone mode tag. -/
inductive HMode
  | am
  | fm
deriving DecidableEq

/-- `HalftoneOptions`. -/
structure HOpts where
  dotSize : ℝ
  angle : ℝ
  density : Option ℝ := none
  mode : Option HMode := none

/-- `Math.cos(angle * π / 180)`. -/
noncomputable def degCos (angle : ℝ) : ℝ := Real.cos (angle * Real.pi / 180)

/-- `Math.sin(angle * π / 180)`. -/
noncomputable def degSin (angle : ℝ) : ℝ := Real.sin (angle * Real.pi / 180)

/-- Rotated x-coordinate `x*cos + y*sin`. -/
def rotX (c s : ℝ) (x y : ℕ) : ℝ := (x : ℝ) * c + (y : ℝ) * s

/-- Rotated y-coordinate `-x*sin + y*cos`. -/
def rotY (c s : ℝ) (x y : ℕ) : ℝ := -(x : ℝ) * s + (y : ℝ) * c

/-- Dot center coordinate `(c + 0.5) * cellSize` on the rotated grid. -/
noncomputable def dotC (cellSize : ℝ) (c : ℤ) : ℝ := ((c : ℝ) + 1 / 2) * cellSize

/-- Distance from the pixel's rotated position to a dot center. -/
noncomputable def distTo (rx ry dRx dRy : ℝ) : ℝ :=
  Real.sqrt ((rx - dRx) * (rx - dRx) + (ry - dRy) * (ry - dRy))

/-- Density-map sample with the out-of-bounds → 0 convention. -/
def sampleDensity (dm : ℕ → ℝ) (w h : ℕ) (ix iy : ℤ) : ℝ :=
  if 0 ≤ ix ∧ ix < (w : ℤ) ∧ 0 ≤ iy ∧ iy < (h : ℤ) then
    dm (iy.toNat * w + ix.toNat)
  else 0

/-- Sampled, density-scaled and clamped value at a dot center: the center is
mapped back to image space (inverse rotation, rounded), sampled, multiplied
by the density scale and clamped to 1. -/
noncomputable def sampleScaled (dm : ℕ → ℝ) (w h : ℕ) (scale cell c s : ℝ)
    (cx cy : ℤ) : ℝ :=
  min (sampleDensity dm w h (round (dotC cell cx * c - dotC cell cy * s))
        (round (dotC cell cx * s + dotC cell cy * c)) * scale) 1

/-- Anti-aliased edge opacity: 1 inside `radius - edge`, linear ramp to the
outside (callers only use it when `dist ≤ radius + edge`). -/
noncomputable def aaOpacity (dist radius edge : ℝ) : ℝ :=
  if dist < radius - edge then 1 else 1 - (dist - (radius - edge)) / (2 * edge)

/-- AM anti-alias edge width (px). -/
noncomputable def amEdge : ℝ := 1 / 2

/-- Opacity contributed by one AM dot of sampled density `d` at distance
`dist`: skip when `d < 0.001` or beyond `radius + edge`, where
`radius = sqrt(d) × 0.5 × cellSize`; sub-pixel dots (`radius < 1`) get the
extra transparency blend. -/
noncomputable def amDotOpacity (cell d dist : ℝ) : ℝ :=
  if d < 1 / 1000 then 0
  else if Real.sqrt d * (1 / 2) * cell + amEdge < dist then 0
  else if Real.sqrt d * (1 / 2) * cell < 1 then
    aaOpacity dist (Real.sqrt d * (1 / 2) * cell) amEdge
      * (1 - (1 - Real.sqrt d * (1 / 2) * cell) * (1 - Real.sqrt d))
  else aaOpacity dist (Real.sqrt d * (1 / 2) * cell) amEdge

/-- One AM candidate dot's contribution for the pixel at rotated position
`(rx, ry)`. -/
noncomputable def amCandidate (dm : ℕ → ℝ) (w h : ℕ) (scale cell c s rx ry : ℝ)
    (cx cy : ℤ) : ℝ :=
  amDotOpacity cell (sampleScaled dm w h scale cell c s cx cy)
    (distTo rx ry (dotC cell cx) (dotC cell cy))

/-- The 3×3 neighborhood offsets, in source iteration order. -/
def nbhd9 : List (ℤ × ℤ) :=
  [(-1, -1), (0, -1), (1, -1), (-1, 0), (0, 0), (1, 0), (-1, 1), (0, 1), (1, 1)]

/-- AM halftone value of one pixel: max opacity over the 3×3 neighborhood of
grid cells around the pixel's rotated position. -/
noncomputable def amPixel (dm : ℕ → ℝ) (w h : ℕ) (scale cell c s : ℝ)
    (x y : ℕ) : ℝ :=
  nbhd9.foldl
    (fun m dxy =>
      max m (amCandidate dm w h scale cell c s (rotX c s x y) (rotY c s x y)
        (⌊rotX c s x y / cell⌋ + dxy.1) (⌊rotY c s x y / cell⌋ + dxy.2)))
    0

/-- `applyAMHalftone`: cell size is `dotSize + 2`, density scale defaults
to 1. -/
noncomputable def applyAMHalftone (dm : ℕ → ℝ) (w h : ℕ) (opts : HOpts) :
    ℕ → ℝ :=
  fun idx =>
    if idx < w * h then
      amPixel dm w h (opts.density.getD 1) (opts.dotSize + 2)
        (degCos opts.angle) (degSin opts.angle) (idx % w) (idx / w)
    else 0

/-- Unsigned 32-bit view of an integer (the `| 0` / `>>> 0` pattern). -/
def u32 (z : ℤ) : ℕ := (z % (2 ^ 32)).toNat

/-- First mixing stage of `cellHash`. -/
def hash1 (x y : ℤ) : ℕ := u32 (x * 374761393 + y * 668265263)

/-- Second mixing stage of `cellHash` (`Math.imul` with 1274126177). -/
def hash2 (x y : ℤ) : ℕ :=
  Nat.xor (hash1 x y) (hash1 x y >>> 13) * 1274126177 % 2 ^ 32

/-- Deterministic per-cell hash → threshold in `[0, 1)`. -/
noncomputable def cellHash (x y : ℤ) : ℝ :=
  (Nat.xor (hash2 x y) (hash2 x y >>> 16) : ℝ) / 4294967296

/-- FM dot radius: fixed at `dotSize * 0.5`. -/
noncomputable def fmRadius (opts : HOpts) : ℝ := opts.dotSize * (1 / 2)

/-- FM anti-alias edge `max(0.5, 0.5 / dotSize)`. -/
noncomputable def fmEdge (opts : HOpts) : ℝ := max (1 / 2) (1 / 2 / opts.dotSize)

/-- FM sub-pixel transparency blend strength `max(0, 1 - dotRadius)`. -/
noncomputable def fmSubBlend (opts : HOpts) : ℝ := max 0 (1 - fmRadius opts)

/-- FM search radius in cells. -/
noncomputable def fmSearch (opts : HOpts) : ℕ :=
  (⌈(fmRadius opts + fmEdge opts) / opts.dotSize⌉).toNat

/-- Offsets `-sr … sr`. -/
def offsets (sr : ℕ) : List ℤ := (List.range (2 * sr + 1)).map fun k => (k : ℤ) - (sr : ℤ)

/-- One FM candidate cell's contribution: skip beyond the dot's anti-aliased
footprint; the dot is present only when the sampled scaled density exceeds
the cell's hash threshold. -/
noncomputable def fmCandidate (dm : ℕ → ℝ) (w h : ℕ) (opts : HOpts)
    (rx ry : ℝ) (cx cy : ℤ) : ℝ :=
  if fmRadius opts + fmEdge opts
      < distTo rx ry (dotC opts.dotSize cx) (dotC opts.dotSize cy) then 0
  else if sampleScaled dm w h (opts.density.getD 1) opts.dotSize
      (degCos opts.angle) (degSin opts.angle) cx cy ≤ cellHash cx cy then 0
  else if 0 < fmSubBlend opts then
    aaOpacity (distTo rx ry (dotC opts.dotSize cx) (dotC opts.dotSize cy))
        (fmRadius opts) (fmEdge opts)
      * (1 - fmSubBlend opts
          * (1 - Real.sqrt (sampleScaled dm w h (opts.density.getD 1)
              opts.dotSize (degCos opts.angle) (degSin opts.angle) cx cy)))
  else
    aaOpacity (distTo rx ry (dotC opts.dotSize cx) (dotC opts.dotSize cy))
      (fmRadius opts) (fmEdge opts)

/-- FM halftone value of one pixel (dy outer loop, dx inner loop). -/
noncomputable def fmPixel (dm : ℕ → ℝ) (w h : ℕ) (opts : HOpts) (x y : ℕ) : ℝ :=
  (offsets (fmSearch opts)).foldl
    (fun m dy =>
      (offsets (fmSearch opts)).foldl
        (fun m' dx =>
          max m' (fmCandidate dm w h opts
            (rotX (degCos opts.angle) (degSin opts.angle) x y)
            (rotY (degCos opts.angle) (degSin opts.angle) x y)
            (⌊rotX (degCos opts.angle) (degSin opts.angle) x y / opts.dotSize⌋ + dx)
            (⌊rotY (degCos opts.angle) (degSin opts.angle) x y / opts.dotSize⌋ + dy)))
        m)
    0

/-- `applyFMHalftone`: cell size is `dotSize` itself. -/
noncomputable def applyFMHalftone (dm : ℕ → ℝ) (w h : ℕ) (opts : HOpts) :
    ℕ → ℝ :=
  fun idx =>
    if idx < w * h then fmPixel dm w h opts (idx % w) (idx / w) else 0

/-- `applyHalftone` dispatch: FM when `mode === "fm"`, AM otherwise. -/
noncomputable def applyHalftone (dm : ℕ → ℝ) (w h : ℕ) (opts : HOpts) :
    ℕ → ℝ :=
  if opts.mode = some HMode.fm then applyFMHalftone dm w h opts
  else applyAMHalftone dm w h opts

end Halftone

section FoldHelpers

variable {α : Type} {γ : Type} [LinearOrder γ]

lemma foldl_congr_mem (l : List α) {β : Type} (f g : β → α → β) (b : β)
    (h : ∀ x a, a ∈ l → f x a = g x a) : l.foldl f b = l.foldl g b := by
  induction l generalizing b with
  | nil => rfl
  | cons x xs ih =>
    rw [List.foldl_cons, List.foldl_cons, h b x (List.mem_cons_self x xs)]
    exact ih _ fun c a ha => h c a (List.mem_cons_of_mem x ha)

lemma init_le_foldl_max (l : List α) (f : α → γ) (init : γ) :
    init ≤ l.foldl (fun m a => max m (f a)) init := by
  induction l generalizing init with
  | nil => exact le_refl init
  | cons x xs ih => exact le_trans (le_max_left init (f x)) (ih _)

lemma le_foldl_max (l : List α) (f : α → γ) (a : α) :
    ∀ init, a ∈ l → f a ≤ l.foldl (fun m b => max m (f b)) init := by
  induction l with
  | nil => intro init ha; cases ha
  | cons x xs ih =>
    intro init ha
    rw [List.foldl_cons]
    rcases List.mem_cons.mp ha with h | h
    · subst h
      exact le_trans (le_max_right init (f a)) (init_le_foldl_max xs f _)
    · exact ih _ h

lemma foldl_max_le (l : List α) (f : α → γ) (M : γ) :
    ∀ init, init ≤ M → (∀ a ∈ l, f a ≤ M) →
      l.foldl (fun m a => max m (f a)) init ≤ M := by
  induction l with
  | nil => intro init hi _; exact hi
  | cons x xs ih =>
    intro init hi h
    rw [List.foldl_cons]
    exact ih _ (max_le hi (h x (List.mem_cons_self x xs)))
      fun a ha => h a (List.mem_cons_of_mem x ha)

lemma foldl_max_all_zero (l : List α) (f : α → γ) (z : γ)
    (h : ∀ a ∈ l, f a = z) :
    l.foldl (fun m a => max m (f a)) z = z := by
  induction l with
  | nil => rfl
  | cons x xs ih =>
    rw [List.foldl_cons, h x (List.mem_cons_self x xs), max_self]
    exact ih fun a ha => h a (List.mem_cons_of_mem x ha)

end FoldHelpers

section ClaimC8

lemma sample_idx_lt (w h : ℕ) (ix iy : ℤ) (h1 : 0 ≤ ix) (h2 : ix < (w : ℤ))
    (h3 : 0 ≤ iy) (h4 : iy < (h : ℤ)) : iy.toNat * w + ix.toNat < w * h := by
  have ha : iy.toNat < h := by omega
  have hb : ix.toNat < w := by omega
  calc iy.toNat * w + ix.toNat < iy.toNat * w + w := by omega
    _ = (iy.toNat + 1) * w := by ring
    _ ≤ h * w := Nat.mul_le_mul_right w ha
    _ = w * h := Nat.mul_comm h w

lemma sampleDensity_congr (dm₁ dm₂ : ℕ → ℝ) (w h : ℕ)
    (hdm : ∀ i, i < w * h → dm₁ i = dm₂ i) (ix iy : ℤ) :
    sampleDensity dm₁ w h ix iy = sampleDensity dm₂ w h ix iy := by
  rw [sampleDensity, sampleDensity]
  split_ifs with hc
  · exact hdm _ (sample_idx_lt w h ix iy hc.1 hc.2.1 hc.2.2.1 hc.2.2.2)
  · rfl

lemma sampleScaled_congr (dm₁ dm₂ : ℕ → ℝ) (w h : ℕ)
    (hdm : ∀ i, i < w * h → dm₁ i = dm₂ i) (scale cell c s : ℝ) (cx cy : ℤ) :
    sampleScaled dm₁ w h scale cell c s cx cy
      = sampleScaled dm₂ w h scale cell c s cx cy := by
  rw [sampleScaled, sampleScaled, sampleDensity_congr dm₁ dm₂ w h hdm]

/-- C8: `applyHalftone` in both AM and FM modes is a pure function of the
density map, the dimensions and the options: two invocations whose density
maps agree on every in-bounds pixel produce identical opacity maps
(bit-for-bit in the model); the only pseudo-randomness is the deterministic
per-cell hash `cellHash`, a pure function of the cell coordinates. -/
theorem applyHalftone_deterministic (dm₁ dm₂ : ℕ → ℝ) (w h : ℕ) (opts : HOpts)
    (hdm : ∀ i, i < w * h → dm₁ i = dm₂ i) :
    applyHalftone dm₁ w h opts = applyHalftone dm₂ w h opts := by
  have ham : ∀ x y : ℕ,
      amPixel dm₁ w h (opts.density.getD 1) (opts.dotSize + 2)
          (degCos opts.angle) (degSin opts.angle) x y
        = amPixel dm₂ w h (opts.density.getD 1) (opts.dotSize + 2)
          (degCos opts.angle) (degSin opts.angle) x y := by
    intro x y
    rw [amPixel, amPixel]
    refine foldl_congr_mem nbhd9 _ _ 0 fun m dxy _ => ?_
    rw [amCandidate, amCandidate, sampleScaled_congr dm₁ dm₂ w h hdm]
  have hfm : ∀ x y : ℕ, fmPixel dm₁ w h opts x y = fmPixel dm₂ w h opts x y := by
    intro x y
    rw [fmPixel, fmPixel]
    refine foldl_congr_mem _ _ _ 0 fun m dy _ => ?_
    refine foldl_congr_mem _ _ _ m fun m' dx _ => ?_
    simp only [fmCandidate, sampleScaled_congr dm₁ dm₂ w h hdm]
  rw [applyHalftone, applyHalftone]
  split
  · funext idx
    rw [applyFMHalftone, applyFMHalftone]
    split
    · exact hfm _ _
    · rfl
  · funext idx
    rw [applyAMHalftone, applyAMHalftone]
    split
    · exact ham _ _
    · rfl

theorem applyHalftone_deterministic_witness :
    (∀ i, i < 1 * 1 → (fun _ => (0 : ℝ)) i = (fun _ => (0 : ℝ)) i)
    ∧ applyHalftone (fun _ => (0 : ℝ)) 1 1 ⟨1, 15, none, some HMode.fm⟩
        = applyHalftone (fun _ => (0 : ℝ)) 1 1 ⟨1, 15, none, some HMode.fm⟩ :=
  ⟨fun _ _ => rfl,
   applyHalftone_deterministic _ _ 1 1 ⟨1, 15, none, some HMode.fm⟩
     fun _ _ => rfl⟩

end ClaimC8

section ClaimC9

lemma floor_eval {K : Type} [LinearOrderedField K] [FloorRing K]
    (x : K) (z : ℤ) (h1 : (z : K) ≤ x) (h2 : x < z + 1) : ⌊x⌋ = z :=
  Int.floor_eq_iff.mpr ⟨h1, h2⟩

lemma aaOpacity_le_one (dist radius : ℝ) : aaOpacity dist radius amEdge ≤ 1 := by
  simp only [aaOpacity, amEdge]
  split_ifs with hlt
  · exact le_refl 1
  · have h0 : 0 ≤ (dist - (radius - 1 / 2)) / (2 * (1 / 2)) := by
      apply div_nonneg <;> [linarith [not_lt.mp hlt]; norm_num]
    linarith

lemma aaOpacity_nonneg (dist radius : ℝ) (h : dist ≤ radius + amEdge) :
    0 ≤ aaOpacity dist radius amEdge := by
  simp only [aaOpacity, amEdge]
  simp only [amEdge] at h
  split_ifs with hlt
  · exact zero_le_one
  · have : (dist - (radius - 1 / 2)) / (2 * (1 / 2)) ≤ 1 := by
      rw [div_le_one (by norm_num)]
      linarith
    linarith

lemma amDotOpacity_le_one (cell d dist : ℝ) (hcell : 0 ≤ cell) (hd : d ≤ 1) :
    amDotOpacity cell d dist ≤ 1 := by
  rw [amDotOpacity]
  split_ifs with h1 h2 h3
  · exact zero_le_one
  · exact zero_le_one
  · have hs0 : 0 ≤ Real.sqrt d := Real.sqrt_nonneg d
    have hs1 : Real.sqrt d ≤ 1 := Real.sqrt_le_one.mpr hd
    have hr0 : 0 ≤ Real.sqrt d * (1 / 2) * cell := by positivity
    have hb0 : 0 ≤ aaOpacity dist (Real.sqrt d * (1 / 2) * cell) amEdge :=
      aaOpacity_nonneg _ _ (not_lt.mp h2)
    have hb1 : aaOpacity dist (Real.sqrt d * (1 / 2) * cell) amEdge ≤ 1 :=
      aaOpacity_le_one _ _
    have hm1 : 1 - (1 - Real.sqrt d * (1 / 2) * cell) * (1 - Real.sqrt d) ≤ 1 := by
      nlinarith
    have hm0 : 0 ≤ 1 - (1 - Real.sqrt d * (1 / 2) * cell) * (1 - Real.sqrt d) := by
      nlinarith
    exact mul_le_one₀ hb1 hm0 hm1
  · exact aaOpacity_le_one _ _

lemma applyAM_at (dm : ℕ → ℝ) (w h : ℕ) (opts : HOpts) (x y : ℕ)
    (hx : x < w) (hy : y < h) :
    applyAMHalftone dm w h opts (y * w + x)
      = amPixel dm w h (opts.density.getD 1) (opts.dotSize + 2)
        (degCos opts.angle) (degSin opts.angle) x y := by
  have hw : 0 < w := lt_of_le_of_lt (Nat.zero_le x) hx
  have hlt : y * w + x < w * h := by
    calc y * w + x < y * w + w := by omega
      _ = (y + 1) * w := by ring
      _ ≤ h * w := Nat.mul_le_mul_right w hy
      _ = w * h := Nat.mul_comm h w
  have hmod : (y * w + x) % w = x := by
    rw [Nat.add_comm, Nat.add_mul_mod_self_right, Nat.mod_eq_of_lt hx]
  have hdiv : (y * w + x) / w = y := by
    rw [Nat.add_comm, Nat.add_mul_div_right x y hw, Nat.div_eq_of_lt hx,
      Nat.zero_add]
  rw [applyAMHalftone]
  simp only [if_pos hlt, hmod, hdiv]

/-- C9: in AM mode (cell size `dotSize + 2`, dot radius
`sqrt(density) × 0.5 × cellSize`): when the pixel sits exactly at one of its
3×3 candidate dot centers and the sampled, scaled and clamped density there
is 1, the output opacity is exactly 1; and when every candidate's sampled
scaled density is below 0.001, the output opacity is exactly 0. -/
theorem am_halftone_extremes
    (dm : ℕ → ℝ) (w h x y : ℕ) (opts : HOpts) (scale cell c s : ℝ)
    (hscale : scale = opts.density.getD 1) (hcell : cell = opts.dotSize + 2)
    (hc : c = degCos opts.angle) (hs : s = degSin opts.angle)
    (hx : x < w) (hy : y < h) :
    (0 < opts.dotSize →
      ∀ dx dy : ℤ, (dx, dy) ∈ nbhd9 →
      rotX c s x y = dotC cell (⌊rotX c s x y / cell⌋ + dx) →
      rotY c s x y = dotC cell (⌊rotY c s x y / cell⌋ + dy) →
      sampleScaled dm w h scale cell c s (⌊rotX c s x y / cell⌋ + dx)
        (⌊rotY c s x y / cell⌋ + dy) = 1 →
      applyAMHalftone dm w h opts (y * w + x) = 1)
    ∧ ((∀ dxy ∈ nbhd9,
        sampleScaled dm w h scale cell c s (⌊rotX c s x y / cell⌋ + dxy.1)
          (⌊rotY c s x y / cell⌋ + dxy.2) < 1 / 1000) →
      applyAMHalftone dm w h opts (y * w + x) = 0) := by
  subst hscale hcell hc hs
  rw [applyAM_at dm w h opts x y hx hy]
  constructor
  · intro hdot dx dy hmem hcx hcy hdens
    rw [amPixel]
    have hcell0 : (0 : ℝ) ≤ opts.dotSize + 2 := by linarith
    apply le_antisymm
    · refine foldl_max_le nbhd9 _ 1 0 zero_le_one fun dxy _ => ?_
      exact amDotOpacity_le_one _ _ _ hcell0
        (min_le_right _ 1)
    · refine le_trans (le_of_eq ?_)
        (le_foldl_max nbhd9 _ (dx, dy) 0 hmem)
    -- the candidate at the pixel's own center contributes exactly 1
      rw [amCandidate, hdens]
      rw [← hcx, ← hcy]
      rw [show distTo (rotX (degCos opts.angle) (degSin opts.angle) x y)
          (rotY (degCos opts.angle) (degSin opts.angle) x y)
          (rotX (degCos opts.angle) (degSin opts.angle) x y)
          (rotY (degCos opts.angle) (degSin opts.angle) x y) = 0 by
        rw [distTo]; simp [Real.sqrt_zero]]
      rw [amDotOpacity, Real.sqrt_one]
      rw [if_neg (by norm_num), if_neg (by rw [amEdge]; push_neg; linarith),
        if_neg (by push_neg; linarith), aaOpacity,
        if_pos (by rw [amEdge]; linarith)]
  · intro hall
    rw [amPixel]
    refine foldl_max_all_zero nbhd9 _ 0 fun dxy hmem => ?_
    rw [amCandidate, amDotOpacity, if_pos (hall dxy hmem)]

/-- Concrete AM options: dot size 2, angle 0 (so the rotation is the
identity), defaults elsewhere. -/
def opts9 : HOpts := ⟨2, 0, none, none⟩

lemma opts9_cos : (1 : ℝ) = degCos opts9.angle := by
  rw [degCos]
  simp [opts9]

lemma opts9_sin : (0 : ℝ) = degSin opts9.angle := by
  rw [degSin]
  simp [opts9]

lemma rotX9 : rotX (1 : ℝ) 0 2 2 = 2 := by norm_num [rotX]

lemma rotY9 : rotY (1 : ℝ) 0 2 2 = 2 := by norm_num [rotY]

lemma floor9 : ⌊rotX (1 : ℝ) 0 2 2 / 4⌋ = 0 := by
  rw [rotX9]
  exact floor_eval _ 0 (by norm_num) (by norm_num)

lemma floor9' : ⌊rotY (1 : ℝ) 0 2 2 / 4⌋ = 0 := by
  rw [rotY9]
  exact floor_eval _ 0 (by norm_num) (by norm_num)

lemma dotC9 : dotC (4 : ℝ) 0 = 2 := by norm_num [dotC]

lemma sample9 :
    sampleScaled (fun _ => (1 : ℝ)) 5 5 1 4 1 0 (⌊rotX (1 : ℝ) 0 2 2 / 4⌋ + 0)
      (⌊rotY (1 : ℝ) 0 2 2 / 4⌋ + 0) = 1 := by
  simp only [floor9, floor9', add_zero]
  rw [sampleScaled, dotC9]
  rw [show ((2 : ℝ) * 1 - 2 * 0) = 2 by norm_num,
    show ((2 : ℝ) * 0 + 2 * 1) = 2 by norm_num,
    round_eval (2 : ℝ) 2 (by norm_num) (by norm_num)]
  rw [sampleDensity, if_pos (by norm_num)]
  norm_num

theorem am_halftone_extremes_witness :
    applyAMHalftone (fun _ => (1 : ℝ)) 5 5 opts9 (2 * 5 + 2) = 1
    ∧ applyAMHalftone (fun _ => (0 : ℝ)) 1 1 opts9 (0 * 1 + 0) = 0 :=
  ⟨(am_halftone_extremes (fun _ => (1 : ℝ)) 5 5 2 2 opts9 1 4 1 0
      (by simp [opts9]) (by norm_num [opts9]) opts9_cos opts9_sin
      (by norm_num) (by norm_num)).1
    (by norm_num [opts9]) 0 0 (by norm_num [nbhd9])
    (by rw [floor9, rotX9]; norm_num [dotC])
    (by rw [floor9', rotY9]; norm_num [dotC])
    sample9,
   (am_halftone_extremes (fun _ => (0 : ℝ)) 1 1 0 0 opts9 1 4 1 0
      (by simp [opts9]) (by norm_num [opts9]) opts9_cos opts9_sin
      (by norm_num) (by norm_num)).2
    (fun dxy _ => by
      rw [sampleScaled]
      rw [show sampleDensity (fun _ => (0 : ℝ)) 1 1 _ _ = 0 by
        rw [sampleDensity]; split <;> rfl]
      norm_num)⟩

end ClaimC9

section Pipeline

/-- Color-separation mode tag. -/
inductive CMode
  | natural
  | bold
deriving DecidableEq

/-- `StencilColor` with the hex color pre-parsed to RGB (hex parsing is a
collaborator concern). -/
structure SColor where
  rgb : RGB
  angle : Option ℝ := none

/-- `StencilOptions` (optional fields keep their source defaults via
`getD` at the use sites, mirroring the destructuring defaults). -/
structure SOpts where
  colors : List SColor
  dotSize : ℝ
  misregistration : ℝ
  grain : ℝ
  density : Option ℝ := none
  inkOpacity : Option ℝ := none
  paperColor : Option RGB := none
  halftoneMode : Option HMode := none
  colorMode : Option CMode := none
  noise : Option ℝ := none
  transparentBg : Bool := false
  invert : Bool := false

/-- Default screen angles, cycled by ink position. -/
def DEFAULT_ANGLES : List ℝ := [15, 75, 0, 45, 30, 60, 90, 105]

/-- Gradation inversion (`invert` option): each color byte becomes
`255 - v`, alpha is kept; the result is a fresh buffer, the input is not
touched. -/
def invertImage (src : ImageD) : ImageD :=
  ⟨fun i => if i % 4 = 3 then src.data i else 255 - src.data i,
   src.width, src.height⟩

/-- First mixing stage of `scuffHash` (includes the seed term). -/
def shash1 (x y : ℤ) (seed : ℕ) : ℕ :=
  u32 (x * 374761393 + y * 668265263 + (seed : ℤ) * 1013904223)

/-- Second mixing stage of `scuffHash`. -/
def shash2 (x y : ℤ) (seed : ℕ) : ℕ :=
  Nat.xor (shash1 x y seed) (shash1 x y seed >>> 13) * 1274126177 % 2 ^ 32

/-- Scuff-noise hash: cell coordinates + seed → `[0, 1)`. -/
noncomputable def scuffHash (x y : ℤ) (seed : ℕ) : ℝ :=
  (Nat.xor (shash2 x y seed) (shash2 x y seed >>> 16) : ℝ) / 4294967296

/-- Smoothstep weight `f² (3 - 2f)`. -/
def sstep (f : ℝ) : ℝ := f * f * (3 - 2 * f)

/-- Bilinearly interpolated (smoothstep) value noise on a grid of hashed
corners. -/
noncomputable def smoothNoise (x y cellSize : ℝ) (seed : ℕ) : ℝ :=
  (scuffHash ⌊x / cellSize⌋ ⌊y / cellSize⌋ seed
      * (1 - sstep (x / cellSize - ⌊x / cellSize⌋))
    + scuffHash (⌊x / cellSize⌋ + 1) ⌊y / cellSize⌋ seed
      * sstep (x / cellSize - ⌊x / cellSize⌋))
    * (1 - sstep (y / cellSize - ⌊y / cellSize⌋))
  + (scuffHash ⌊x / cellSize⌋ (⌊y / cellSize⌋ + 1) seed
      * (1 - sstep (x / cellSize - ⌊x / cellSize⌋))
    + scuffHash (⌊x / cellSize⌋ + 1) (⌊y / cellSize⌋ + 1) seed
      * sstep (x / cellSize - ⌊x / cellSize⌋))
    * sstep (y / cellSize - ⌊y / cellSize⌋)

/-- Scuff (ink-starvation) modulation of one layer's halftone map: three
octaves of value noise, seeded by the ink position; only positive deviation
fades the opacity. -/
noncomputable def scuffMap (w : ℕ) (dotSize noise : ℝ) (ci : ℕ)
    (hm : ℕ → ℝ) : ℕ → ℝ :=
  fun i =>
    if hm i < 1 / 250 then hm i
    else
      let seed := ci * 7919 + 31
      let s1 := max (dotSize * 4) 8 * (1 + noise * 8)
      let n := smoothNoise ((i % w : ℕ) : ℝ) ((i / w : ℕ) : ℝ) s1 seed * (3 / 10)
        + smoothNoise ((i % w : ℕ) : ℝ) ((i / w : ℕ) : ℝ) (s1 * 3) (seed + 997)
          * (4 / 10)
        + smoothNoise ((i % w : ℕ) : ℝ) ((i / w : ℕ) : ℝ) (s1 * 3 * 3)
          (seed + 2003) * (3 / 10)
      if 0 < (1 / 2 - n) * 2 then
        hm i * max 0 (1 - (1 / 2 - n) * 2 * noise * 2)
      else hm i

/-- Sigmoid value at 0 used for the bold-transform renormalization. -/
noncomputable def sigmoid0 : ℝ := 1 / (1 + Real.exp (6 * (7 / 20)))

/-- Sigmoid value at 1 used for the bold-transform renormalization. -/
noncomputable def sigmoid1 : ℝ := 1 / (1 + Real.exp (-(6 : ℝ) * (1 - 7 / 20)))

/-- Maximum density across inks at pixel `p`. -/
noncomputable def boldPixelMax (maps : List (ℕ → ℝ)) (p : ℕ) : ℝ :=
  maps.foldl (fun m mp => max m (mp p)) 0

/-- Bold post-processing of a single density `x` given the pixel's dominant
density `maxD`: competitive suppression `x × (x/maxD)²`, then the
renormalized sigmoid contrast with the `< 0.001` snap to 0. -/
noncomputable def boldValue (maxD x : ℝ) : ℝ :=
  if x * (x / maxD) ^ 2 < 1 / 1000 then 0
  else
    clamp01 ((1 / (1 + Real.exp (-(6 : ℝ) * (x * (x / maxD) ^ 2 - 7 / 20)))
      - sigmoid0) / (sigmoid1 - sigmoid0))

/-- `applyBoldTransform`: pixels whose dominant density is below 0.01 are
skipped. -/
noncomputable def applyBoldTransform (maps : List (ℕ → ℝ)) (pixelCount : ℕ) :
    List (ℕ → ℝ) :=
  if maps.length = 0 then maps
  else
    maps.map fun mp => fun p =>
      if p < pixelCount then
        if boldPixelMax maps p < 1 / 100 then mp p
        else boldValue (boldPixelMax maps p) (mp p)
      else mp p

/-- Halftone map of layer `ci` (angle from the ink or the rotation table). -/
noncomputable def layerHalftone (w h : ℕ) (opts : SOpts)
    (dmaps : List (ℕ → ℝ)) (ci : ℕ) : ℕ → ℝ :=
  applyHalftone (dmaps.getD ci (fun _ => 0)) w h
    ⟨opts.dotSize,
     ((opts.colors.getD ci ⟨WHITE, none⟩).angle).getD
       (DEFAULT_ANGLES.getD (ci % DEFAULT_ANGLES.length) 0),
     opts.density, opts.halftoneMode⟩

/-- Layer `ci` as consumed by the compositor: scuffed halftone map,
misregistration offsets drawn from the injected random streams `r1`, `r2`
(the two `Math.random()` calls per layer), per-pixel grain jitter from the
injected stream `gj`. -/
noncomputable def mkLayer (w h : ℕ) (opts : SOpts) (dmaps : List (ℕ → ℝ))
    (r1 r2 : ℕ → ℝ) (gj : ℕ → ℕ → ℝ) (ci : ℕ) : Layer ℝ :=
  ⟨(opts.colors.getD ci ⟨WHITE, none⟩).rgb,
   (if 0 < opts.noise.getD 0 then
      scuffMap w opts.dotSize (opts.noise.getD 0) ci
        (layerHalftone w h opts dmaps ci)
    else layerHalftone w h opts dmaps ci),
   (if 0 < opts.misregistration then
      round ((r1 ci - 1 / 2) * 2 * opts.misregistration)
    else 0),
   (if 0 < opts.misregistration then
      round ((r2 ci - 1 / 2) * 2 * opts.misregistration)
    else 0),
   fun pi => gj ci pi⟩

/-- The (possibly inverted) source consumed by decomposition. -/
def stencilSource (src : ImageD) (opts : SOpts) : ImageD :=
  if opts.invert then invertImage src else src

/-- Density maps of the pipeline: assembly (decomposition + luminance
fallback), then the optional bold transform. -/
noncomputable def stencilMaps (src : ImageD) (opts : SOpts) : List (ℕ → ℝ) :=
  if opts.colorMode = some CMode.bold then
    applyBoldTransform
      (buildDensityMaps (K := ℝ) (stencilSource src opts)
        (opts.colors.map fun c => c.rgb))
      (src.width * src.height)
  else
    buildDensityMaps (K := ℝ) (stencilSource src opts)
      (opts.colors.map fun c => c.rgb)

/-- Accumulated multiply buffer and coverage after all ink layers. -/
noncomputable def stencilState (src : ImageD) (opts : SOpts)
    (r1 r2 : ℕ → ℝ) (gj : ℕ → ℕ → ℝ) : (ℕ → ℤ × ℤ × ℤ) × (ℕ → ℝ) :=
  (List.range opts.colors.length).foldl
    (fun st ci =>
      compositeLayer src.width src.height (opts.inkOpacity.getD (17 / 20))
        opts.grain st (mkLayer src.width src.height opts
          (stencilMaps src opts) r1 r2 gj ci))
    initState

/-- Transparent-background finalization: extract straight color and
coverage alpha from the white-basis multiply buffer. -/
noncomputable def finalizeTransparent (w h : ℕ)
    (st : (ℕ → ℤ × ℤ × ℤ) × (ℕ → ℝ)) : ℕ → ℤ × ℤ × ℤ × ℤ :=
  fun i =>
    if i < w * h then
      if st.2 i < 1 / 250 then (0, 0, 0, 0)
      else
        (max 0 (round ((((st.1 i).1 : ℝ) - 255 * (1 - st.2 i)) / st.2 i)),
         max 0 (round ((((st.1 i).2.1 : ℝ) - 255 * (1 - st.2 i)) / st.2 i)),
         max 0 (round ((((st.1 i).2.2 : ℝ) - 255 * (1 - st.2 i)) / st.2 i)),
         round (st.2 i * 255))
    else ((st.1 i).1, (st.1 i).2.1, (st.1 i).2.2, 255)

/-- Paper finalization: blend the multiply buffer toward the paper color by
the uncovered fraction (skipped entirely for white paper and for fully
covered pixels). -/
noncomputable def finalizePaper (w h : ℕ) (paper : RGB)
    (st : (ℕ → ℤ × ℤ × ℤ) × (ℕ → ℝ)) : ℕ → ℤ × ℤ × ℤ × ℤ :=
  fun i =>
    if ((paper.r : ℤ) - 255 ≠ 0 ∨ (paper.g : ℤ) - 255 ≠ 0
          ∨ (paper.b : ℤ) - 255 ≠ 0)
        ∧ i < w * h ∧ ¬ (1 - st.2 i < 1 / 250) then
      (max 0 (min 255 (round (((st.1 i).1 : ℝ)
          + ((paper.r : ℝ) - 255) * (1 - st.2 i)))),
       max 0 (min 255 (round (((st.1 i).2.1 : ℝ)
          + ((paper.g : ℝ) - 255) * (1 - st.2 i)))),
       max 0 (min 255 (round (((st.1 i).2.2 : ℝ)
          + ((paper.b : ℝ) - 255) * (1 - st.2 i)))),
       255)
    else ((st.1 i).1, (st.1 i).2.1, (st.1 i).2.2, 255)

/-- `computeStencil`, with the two ambient randomness sources injected as
explicit streams: `r1 ci`, `r2 ci` are the per-layer misregistration
`Math.random()` samples and `gj ci pi` the per-pixel grain jitter samples. -/
noncomputable def computeStencil (src : ImageD) (opts : SOpts)
    (r1 r2 : ℕ → ℝ) (gj : ℕ → ℕ → ℝ) : ℕ → ℤ × ℤ × ℤ × ℤ :=
  if opts.transparentBg then
    finalizeTransparent src.width src.height (stencilState src opts r1 r2 gj)
  else
    finalizePaper src.width src.height (opts.paperColor.getD DEFAULT_PAPER)
      (stencilState src opts r1 r2 gj)

end Pipeline

section ClaimC5

/-- C5: with an empty ink list, `computeStencil` maps every in-bounds pixel
to the configured paper color with alpha 255 in paper mode, and to
`(0,0,0,0)` in transparent-background mode — uniformly, for any input image
and any random streams, with no error. -/
theorem empty_inks_uniform_output (src : ImageD) (opts : SOpts)
    (r1 r2 : ℕ → ℝ) (gj : ℕ → ℕ → ℝ) (i : ℕ)
    (hc : opts.colors = [])
    (hp : (opts.paperColor.getD DEFAULT_PAPER).r ≤ 255
      ∧ (opts.paperColor.getD DEFAULT_PAPER).g ≤ 255
      ∧ (opts.paperColor.getD DEFAULT_PAPER).b ≤ 255)
    (hi : i < src.width * src.height) :
    computeStencil src opts r1 r2 gj i
      = if opts.transparentBg then (0, 0, 0, 0)
        else (((opts.paperColor.getD DEFAULT_PAPER).r : ℤ),
          ((opts.paperColor.getD DEFAULT_PAPER).g : ℤ),
          ((opts.paperColor.getD DEFAULT_PAPER).b : ℤ), 255) := by
  have hst : stencilState src opts r1 r2 gj = initState := by
    rw [stencilState, hc]
    rfl
  rw [computeStencil, hst]
  split_ifs with ht
  · rw [finalizeTransparent]
    simp only [initState, if_pos hi]
    rw [if_pos (by norm_num)]
  · rw [finalizePaper]
    simp only [initState]
    by_cases hwp : ((opts.paperColor.getD DEFAULT_PAPER).r : ℤ) - 255 ≠ 0
        ∨ ((opts.paperColor.getD DEFAULT_PAPER).g : ℤ) - 255 ≠ 0
        ∨ ((opts.paperColor.getD DEFAULT_PAPER).b : ℤ) - 255 ≠ 0
    · rw [if_pos ⟨hwp, hi, by norm_num⟩]
      have hch : ∀ c : ℕ, c ≤ 255 →
          max 0 (min 255 (round (((255 : ℤ) : ℝ) + ((c : ℝ) - 255) * (1 - 0))))
            = (c : ℤ) := by
        intro c hc255
        rw [show ((255 : ℤ) : ℝ) + ((c : ℝ) - 255) * (1 - 0) = ((c : ℕ) : ℝ) by
          push_cast; ring]
        rw [round_natCast]
        omega
      rw [hch _ hp.1, hch _ hp.2.1, hch _ hp.2.2]
    · rw [if_neg fun h' => hwp h'.1]
      push_neg at hwp
      simp only [Prod.mk.injEq]
      refine ⟨by omega, by omega, by omega, trivial⟩

/-- Empty-ink options (everything else at benign values/defaults). -/
def opts5 : SOpts := { colors := [], dotSize := 4, misregistration := 0, grain := 0 }

theorem empty_inks_uniform_output_witness :
    computeStencil imgBlack11 opts5 (fun _ => 0) (fun _ => 0) (fun _ _ => 0) 0
      = (245, 240, 232, 255) := by
  have h := empty_inks_uniform_output imgBlack11 opts5 (fun _ => 0) (fun _ => 0)
    (fun _ _ => 0) 0 rfl (by norm_num [opts5, DEFAULT_PAPER])
    (by norm_num [imgBlack11])
  simpa [opts5, DEFAULT_PAPER] using h

end ClaimC5

section ClaimC7

/-- `compositeLayer` reads a layer's jitter stream only at in-bounds pixels:
two layers equal except for out-of-bounds jitter samples composite
identically. -/
lemma compositeLayer_congr {K : Type} [LinearOrderedField K] [FloorRing K]
    (w h : ℕ) (f g : K) (st : (ℕ → ℤ × ℤ × ℤ) × (ℕ → K)) (L L' : Layer K)
    (h1 : L.rgb = L'.rgb) (h2 : L.opMap = L'.opMap) (h3 : L.ox = L'.ox)
    (h4 : L.oy = L'.oy) (h5 : ∀ pi, pi < w * h → L.jit pi = L'.jit pi) :
    compositeLayer w h f g st L = compositeLayer w h f g st L' := by
  have hop : ∀ pi, pi < w * h → layerOp w g L pi = layerOp w g L' pi := by
    intro pi hpi
    rw [layerOp, layerOp, h2, h5 pi hpi, srcIdx, srcIdx, srcX, srcX,
      srcY, srcY, h3, h4]
  have hB : ∀ pi, inB w h L pi ↔ inB w h L' pi := by
    intro pi
    rw [inB, inB, srcX, srcX, srcY, srcY, h3, h4]
  have hw : ∀ pi, layerWrites w h g L pi ↔ layerWrites w h g L' pi := by
    intro pi
    rw [layerWrites, layerWrites]
    by_cases hpi : pi < w * h
    · rw [hop pi hpi, hB pi]
    · simp [hpi]
  rw [compositeLayer, compositeLayer]
  congr 1
  · funext pi
    by_cases hwpi : layerWrites w h g L pi
    · rw [if_pos hwpi, if_pos ((hw pi).mp hwpi), hop pi hwpi.1, h1]
    · rw [if_neg hwpi, if_neg fun h' => hwpi ((hw pi).mpr h')]
  · funext pi
    by_cases hwpi : layerWrites w h g L pi
    · rw [if_pos hwpi, if_pos ((hw pi).mp hwpi), hop pi hwpi.1]
    · rw [if_neg hwpi, if_neg fun h' => hwpi ((hw pi).mpr h')]

/-- C7: the pipeline consumes randomness only through the per-layer
misregistration samples (`r1 ci`, `r2 ci` for layers `ci` below the ink
count) and the per-pixel grain jitter samples (`gj ci pi` for in-bounds
pixels); two runs whose streams agree on those consumed samples produce
byte-identical output buffers — in particular, identical streams give
identical output. -/
theorem seeded_pipeline_deterministic (src : ImageD) (opts : SOpts)
    (r1 r2 r1' r2' : ℕ → ℝ) (gj gj' : ℕ → ℕ → ℝ)
    (hr1 : ∀ ci, ci < opts.colors.length → r1 ci = r1' ci)
    (hr2 : ∀ ci, ci < opts.colors.length → r2 ci = r2' ci)
    (hgj : ∀ ci, ci < opts.colors.length →
      ∀ pi, pi < src.width * src.height → gj ci pi = gj' ci pi) :
    computeStencil src opts r1 r2 gj = computeStencil src opts r1' r2' gj' := by
  have hst : stencilState src opts r1 r2 gj
      = stencilState src opts r1' r2' gj' := by
    rw [stencilState, stencilState]
    refine foldl_congr_mem _ _ _ initState fun st ci hci => ?_
    have hci' : ci < opts.colors.length := List.mem_range.mp hci
    refine compositeLayer_congr _ _ _ _ _ _ _ rfl rfl ?_ ?_ ?_
    · simp only [mkLayer]
      rw [hr1 ci hci']
    · simp only [mkLayer]
      rw [hr2 ci hci']
    · intro pi hpi
      simp only [mkLayer]
      exact hgj ci hci' pi hpi
  rw [computeStencil, computeStencil, hst]

/-- One black ink, misregistration and grain active. -/
def opts7 : SOpts :=
  { colors := [⟨inkBlack, none⟩], dotSize := 2, misregistration := 1, grain := 1 }

theorem seeded_pipeline_deterministic_witness :
    computeStencil imgBlack11 opts7 (fun _ => 0) (fun _ => 0) (fun _ _ => 0)
      = computeStencil imgBlack11 opts7 (fun ci => if ci < 1 then 0 else 1)
          (fun ci => if ci < 1 then 0 else 1)
          (fun _ pi => if pi < 1 then 0 else 1) :=
  seeded_pipeline_deterministic imgBlack11 opts7 _ _ _ _ _ _
    (fun ci hci => by
      have h : ci < 1 := by simpa [opts7] using hci
      simp [h])
    (fun ci hci => by
      have h : ci < 1 := by simpa [opts7] using hci
      simp [h])
    (fun ci _ pi hpi => by
      have h : pi < 1 := by simpa [imgBlack11] using hpi
      simp [h])

end ClaimC7

end StencilCanvas
